import Mathlib

/-!
# Verification of the maire_hydro Lagrangian hydrodynamics tasks

A shallow embedding of the core solver tasks of the flecsale repository
(`apps/maire_hydro/tasks.h`, the burton mesh geometry kernels, and the
supporting types of `apps/lag_hydro/types.h`), together with theorems
settling the specification claims about them.

Conventions of the embedding:
* `real_t` (C++ double) is embedded as `ℚ` wherever the code performs only
  field arithmetic, so that concrete instances evaluate by `decide`;
  the edge-length kernels, which call `std::sqrt`, are embedded over `ℝ`.
* Vectors of dimension `D` are `Fin D → ℚ` and `D × D` matrices are
  `Fin D → Fin D → ℚ`.
* C++ loops become `List.foldl` over the iterated collection, in iteration
  order; mutable accumulators become fold state.
* The entity ids (cells, vertices, tags) are `Nat`.
* `assert` failures are embedded as `Except.error` with the assertion
  message.
-/

namespace FlecsaleHydro

/-- Spatial vector: `math::vector<real_t, D>`. -/
abbrev Vec (D : Nat) : Type := Fin D → ℚ

/-- Square matrix: `matrix_t<D> = math::matrix<real_t, D, D>`. -/
abbrev Mat (D : Nat) : Type := Fin D → Fin D → ℚ

/-- The zero vector. -/
def Vec.zero (D : Nat) : Vec D := fun _ => 0

/-- The zero matrix. -/
def Mat.zero (D : Nat) : Mat D := fun _ _ => 0

/-- Dot product of two `D`-vectors. -/
def dot {D : Nat} (a b : Vec D) : ℚ :=
  Finset.univ.sum (fun j => a j * b j)

/-- Modelled from the spec: `math::ax_plus_y` (`ale/math`, not under `src/`)
adds the matrix-vector product `A·x` into `y`, as used by the assembly
formulas `b_v = Σ (p_c·N_cn + M_cn·u_c)` and `F_cn = p_c·N_cn + M_cn·(u_c − u_v)`
of the spec. -/
def ax_plus_y {D : Nat} (A : Mat D) (x y : Vec D) : Vec D :=
  fun d => y d + dot (A d) x

/-- Modelled from the spec: `math::outer_product(a, b, C, coef)` (`ale/math`,
not under `src/`) accumulates `coef · (a ⊗ b)` into the matrix `C`, per the
spec formula `M_cn = Σ_w z·ℓ_w·(n_w ⊗ n_w)`. -/
def outer_product {D : Nat} (a b : Vec D) (C : Mat D) (coef : ℚ) : Mat D :=
  fun i j => C i j + coef * (a i * b j)

/-!
## Corner coefficient assembly (`evaluate_corner_coef`, tasks.h lines 268–352)

For one corner the task reads the cell density, sound speed, impedance
multiplier and velocity, plus the vertex velocity, computes the impedance
`zc = dc * ac` (the Burton form is commented out in the source), and folds
over the corner wedges accumulating the corner matrix and corner normal.
-/

/-- The per-wedge geometric inputs: `wedge_facet_area` and `wedge_facet_normal`. -/
structure WedgeGeom (D : Nat) where
  facet_area : ℚ
  facet_normal : Vec D

/-- Body of the corner loop of `evaluate_corner_coef` for one corner `cn`:
the arguments are the cell state pieces read by the task
(`dc`, `ac`, `Gc`, `uc`), the vertex velocity `uv`, and the wedge list of
the corner.  Returns `(Mpc[cn], npc[cn])`. -/
def evaluate_corner_coef_corner {D : Nat} (dc ac Gc : ℚ) (uc uv : Vec D)
    (wedges : List (WedgeGeom D)) : Mat D × Vec D :=
  let zc := dc * ac
  wedges.foldl
    (fun MN w =>
      ( outer_product w.facet_normal w.facet_normal MN.1 (zc * w.facet_area),
        fun d => MN.2 d + w.facet_area * w.facet_normal d ))
    (Mat.zero D, Vec.zero D)

/-!
## Subcell forces (`evaluate_forces`, tasks.h lines 553–620)
-/

/-- The per-corner inputs of the force loop: the corner matrix, corner
normal and the nodal velocity of the corner vertex. -/
structure CornerForceData (D : Nat) where
  Mpc : Mat D
  npc : Vec D
  uv : Vec D

/-- Modelled from the spec: `flux_data_t` (`ale/eqns/lagrange_eqns.h`, not
under `src/`) holds the cell residual rates `dM/dt`, `d(Mu)/dt`, `d(ME)/dt`
and `dV/dt` of spec section 4.6. -/
structure FluxData (D : Nat) where
  mass_rate : ℚ
  momentum_rate : Vec D
  energy_rate : ℚ
  volume_rate : ℚ

/-- The zero residual (the `dudt[cl] = 0.0` of the source). -/
def FluxData.zero (D : Nat) : FluxData D :=
  { mass_rate := 0, momentum_rate := Vec.zero D, energy_rate := 0, volume_rate := 0 }

/-- Modelled from the spec: `eqns_t::compute_update(uv, force, npc, dudt)`
(`ale/eqns/lagrange_eqns.h`, not under `src/`) accumulates one corner force
into the cell residual per spec section 4.6:
`d(Mu)/dt −= F`, `d(ME)/dt −= F·u_v`, `dV/dt += N·u_v`, mass rate unchanged. -/
def compute_update {D : Nat} (uv force npc : Vec D) (dudt : FluxData D) : FluxData D :=
  { dudt with
    momentum_rate := fun d => dudt.momentum_rate d - force d
    energy_rate := dudt.energy_rate - dot force uv
    volume_rate := dudt.volume_rate + dot npc uv }

/-- The subcell force computed inside the corner loop of `evaluate_forces`:
`force[d] = pc * npc[d]`, `delta_u = uc − uv`, then
`ax_plus_y(Mpc, delta_u, force)`. -/
def subcell_force {D : Nat} (pc : ℚ) (uc : Vec D) (cn : CornerForceData D) : Vec D :=
  let force : Vec D := fun d => pc * cn.npc d
  let delta_u : Vec D := fun d => uc d - cn.uv d
  ax_plus_y cn.Mpc delta_u force

/-- Body of the cell loop of `evaluate_forces` for one cell: zero the
residual, then fold `compute_update` of the subcell force over the corners
of the cell. -/
def evaluate_forces_cell {D : Nat} (pc : ℚ) (uc : Vec D)
    (corners : List (CornerForceData D)) : FluxData D :=
  corners.foldl
    (fun dudt cn => compute_update cn.uv (subcell_force pc uc cn) cn.npc dudt)
    (FluxData.zero D)

/-!
## Nodal state estimate (`estimate_nodal_state`, tasks.h lines 232–260)
-/

/-- Body of the vertex loop of `estimate_nodal_state` for one vertex: zero
the vertex velocity, add the cell velocity of every incident cell, then
divide by the incident-cell count. -/
def estimate_nodal_state_vertex {D : Nat} (cell_vel : Nat → Vec D)
    (cells : List Nat) : Vec D :=
  let v := cells.foldl (fun acc c => fun d => acc d + cell_vel c d) (Vec.zero D)
  fun d => v d / (cells.length : ℚ)

/-!
## Mesh motion and coordinate snapshots
(`move_mesh`, `save_coordinates`, `restore_coordinates`, tasks.h lines 730–825)
-/

/-- The mesh state touched by the coordinate tasks: the live vertex
coordinates, the `node_coordinates` snapshot field, the nodal velocity
field, the global time step, and the geometric cache (updated by
`mesh.update_geometry()`, abstracted as an arbitrary value recomputed from
the coordinates). -/
structure MeshState (D : Nat) (G : Type) where
  coordinates : Nat → Vec D
  coord0 : Nat → Vec D
  node_velocity : Nat → Vec D
  time_step : ℚ
  geometry : G

/-- `save_coordinates`: copy every vertex coordinate into the
`node_coordinates` snapshot field. -/
def save_coordinates {D : Nat} {G : Type} (s : MeshState D G) : MeshState D G :=
  { s with coord0 := s.coordinates }

/-- `move_mesh`: displace every vertex by `coef * dt` times its nodal
velocity, then recompute the geometric cache (`update_geometry` is outside
`src/`; its effect on coordinates is none, so the cache recomputation is an
arbitrary function `geomOf` of the new coordinates). -/
def move_mesh {D : Nat} {G : Type} (geomOf : (Nat → Vec D) → G) (coef : ℚ)
    (s : MeshState D G) : MeshState D G :=
  let fact := coef * s.time_step
  let newCoords : Nat → Vec D :=
    fun v => fun d => s.coordinates v d + fact * s.node_velocity v d
  { s with coordinates := newCoords, geometry := geomOf newCoords }

/-- `restore_coordinates`: copy the snapshot back into the live coordinates. -/
def restore_coordinates {D : Nat} {G : Type} (s : MeshState D G) : MeshState D G :=
  { s with coordinates := s.coord0 }

/-!
## Solution snapshots (`save_solution`, `restore_solution`, tasks.h lines 834–899)
-/

/-- The full per-entity field state of the hydro solver, as registered by
the application: the two snapshotted cell fields in versions 0 and 1, the
remaining cell fields (mass, volume, pressure, density, temperature, sound
speed), and the vertex fields. -/
@[ext]
structure SolutionState (D : Nat) where
  cell_velocity_0 : Nat → Vec D
  cell_velocity_1 : Nat → Vec D
  cell_internal_energy_0 : Nat → ℚ
  cell_internal_energy_1 : Nat → ℚ
  cell_mass : Nat → ℚ
  cell_volume : Nat → ℚ
  cell_pressure : Nat → ℚ
  cell_density : Nat → ℚ
  cell_temperature : Nat → ℚ
  cell_sound_speed : Nat → ℚ
  node_velocity : Nat → Vec D
  node_coordinates : Nat → Vec D

/-- `save_solution`: for every cell, copy `cell_velocity` and
`cell_internal_energy` from version 0 into version 1. -/
def save_solution {D : Nat} (cells : List Nat) (s : SolutionState D) : SolutionState D :=
  cells.foldl
    (fun st c =>
      { st with
        cell_velocity_1 := Function.update st.cell_velocity_1 c (st.cell_velocity_0 c)
        cell_internal_energy_1 :=
          Function.update st.cell_internal_energy_1 c (st.cell_internal_energy_0 c) })
    s

/-- `restore_solution`: for every cell, copy `cell_velocity` and
`cell_internal_energy` from version 1 back into version 0. -/
def restore_solution {D : Nat} (cells : List Nat) (s : SolutionState D) : SolutionState D :=
  cells.foldl
    (fun st c =>
      { st with
        cell_velocity_0 := Function.update st.cell_velocity_0 c (st.cell_velocity_1 c)
        cell_internal_energy_0 :=
          Function.update st.cell_internal_energy_0 c (st.cell_internal_energy_1 c) })
    s

/-!
## Time step control (`evaluate_time_step`, tasks.h lines 142–224)
-/

/-- The CFL constants `time_constants_t` (apps/lag_hydro/types.h): the
`accoustic`, `volume` and `growth` factors (source spelling kept). -/
structure time_constants_t where
  accoustic : ℚ := 1
  volume : ℚ := 1
  growth : ℚ := 0

/-- The per-cell inputs of the time-step loop: the cell sound speed, the
cached minimum cell length, the cell volume, and the volumetric rate of
change `eqns_t::volumetric_rate_of_change(dudt[c])` of the residual. -/
structure CellDtData where
  sound_speed : ℚ
  min_length : ℚ
  volume : ℚ
  dVdt : ℚ

/-- The growth limit of `evaluate_time_step` (tasks.h line 197):
`dt_growth = cfl->growth * (*time_step)`. -/
def growth_limit (cfl : time_constants_t) (time_step : ℚ) : ℚ :=
  cfl.growth * time_step

/-- The accumulated maximum of the inverse acoustic time scales
(`dt_acc_inv`, starting from zero). -/
def dt_acc_inv (cfl : time_constants_t) (cells : List CellDtData) : ℚ :=
  cells.foldl (fun m c => max (c.sound_speed / c.min_length / cfl.accoustic) m) 0

/-- The accumulated maximum of the inverse volumetric time scales
(`dt_vol_inv`, starting from zero). -/
def dt_vol_inv (cfl : time_constants_t) (cells : List CellDtData) : ℚ :=
  cells.foldl (fun m c => max (abs c.dVdt / c.volume / cfl.volume) m) 0

/-- `std::min_element` over the three-entry array `{dt_acc, dt_vol, dt_growth}`:
returns the index and value of the first minimal entry. -/
def min_element_3 (a b c : ℚ) : Nat × ℚ :=
  let m0 : Nat × ℚ := (0, a)
  let m1 : Nat × ℚ := if b < m0.2 then (1, b) else m0
  if c < m1.2 then (2, c) else m1

/-- `evaluate_time_step`: fold the two inverse time scales over the cells,
assert both are positive (`assert(... && "infinite delta t")`, embedded as
an error), form the three limits, select the first minimal one with
`std::min_element`, set the limiter name, and store the selected step.
Returns the new time step and the limiter name. -/
def evaluate_time_step (cfl : time_constants_t) (time_step : ℚ)
    (cells : List CellDtData) : Except String (ℚ × String) :=
  let acc_inv := dt_acc_inv cfl cells
  let vol_inv := dt_vol_inv cfl cells
  if acc_inv > 0 ∧ vol_inv > 0 then
    let dt_acc := cfl.accoustic / acc_inv
    let dt_vol := cfl.volume / vol_inv
    let dt_growth := growth_limit cfl time_step
    let sel := min_element_3 dt_acc dt_vol dt_growth
    let limit : String :=
      if sel.1 = 0 then "accoustic" else if sel.1 = 1 then "volume" else "growth"
    Except.ok (sel.2, limit)
  else
    Except.error "infinite delta t"

/-!
## Edge length kernels (`burton_element_t` geometry, unnamed burton source)

The 2d and 3d edge-length members take the coordinates of the edge's two
vertices and apply `std::sqrt` to a sum of squared coordinate differences;
these kernels are embedded over `ℝ`.
-/

/-- `math::sqr`. -/
def sqr (x : ℝ) : ℝ := x * x

/-- `burton_2d_edge_t::length()`:
`std::sqrt( sqr(a[0]-b[0]) + sqr(a[1]-b[1]) )`. -/
noncomputable def burton_2d_edge_length (a b : Fin 2 → ℝ) : ℝ :=
  Real.sqrt (sqr (a 0 - b 0) + sqr (a 1 - b 1))

/-- `burton_3d_edge_t::length()` as written in the source:
`std::sqrt( sqr(a[0]-b[0]) + sqr(a[1]-b[1]) )` — note that the third
coordinate does not appear. -/
noncomputable def burton_3d_edge_length (a b : Fin 3 → ℝ) : ℝ :=
  Real.sqrt (sqr (a 0 - b 0) + sqr (a 1 - b 1))

/-- The Euclidean distance of two points of `ℝ^3`, the standard closed form
the spec prescribes for the 3d edge length. -/
noncomputable def euclidean_length_3d (a b : Fin 3 → ℝ) : ℝ :=
  Real.sqrt (sqr (a 0 - b 0) + sqr (a 1 - b 1) + sqr (a 2 - b 2))

/-!
## Nodal solve (`evaluate_nodal_state`, tasks.h lines 360–545)

The task loops over vertices.  At each vertex it assembles the point matrix
`Mp` and right-hand side `rhs` from the incident corners, then dispatches:
prescribed-velocity boundary vertices take the boundary callback and skip
everything else; other boundary vertices process their boundary wedges
(pressure subtraction into `rhs`, per-tag symmetry-normal accumulation in a
`std::map`), then either solve the `D × D` system directly (no symmetry
tags) or build the `(D+k) × (D+k)` constrained system and solve it with
`ale::linalg::qr`; interior vertices solve the `D × D` system directly.
-/

/-- `boundary_condition_t` (apps/lag_hydro/types.h): the three condition
kind flags and the two callbacks. -/
structure boundary_condition_t (D : Nat) where
  has_prescribed_velocity : Bool
  has_prescribed_pressure : Bool
  has_symmetry : Bool
  velocity : Vec D → ℚ → Vec D
  pressure : Vec D → ℚ → ℚ

/-- The per-corner inputs of the point-matrix loop: the corner matrix, the
corner normal, and the pressure and velocity of the corner's cell. -/
structure NodalCorner (D : Nat) where
  Mpc : Mat D
  npc : Vec D
  pc : ℚ
  uc : Vec D

/-- One boundary wedge of a vertex, as read by the wedge loop: the tag set
of its face and the wedge facet area, normal and centroid. -/
structure BndWedge (D : Nat) where
  face_tags : List Nat
  facet_area : ℚ
  facet_normal : Vec D
  facet_centroid : Vec D

/-- The per-vertex inputs of `evaluate_nodal_state`: the incident corners,
the boundary flag and tag set of the vertex, its boundary wedges
(`filter_boundary(mesh.wedges(vt))`), and its coordinates. -/
structure NodalVertex (D : Nat) where
  corners : List (NodalCorner D)
  bnd : Bool
  tags : List Nat
  bnd_wedges : List (BndWedge D)
  coordinates : Vec D

/-- The point-matrix accumulation `Mp += Mpc[cn]` over the corners of the
vertex. -/
def assemble_Mp {D : Nat} (corners : List (NodalCorner D)) : Mat D :=
  corners.foldl (fun Mp cn => fun i j => Mp i j + cn.Mpc i j) (Mat.zero D)

/-- The right-hand-side accumulation over the corners of the vertex:
`rhs[d] += pc * npc[cn][d]` followed by `ax_plus_y(Mpc[cn], uc, rhs)`. -/
def assemble_rhs {D : Nat} (corners : List (NodalCorner D)) : Vec D :=
  corners.foldl
    (fun rhs cn => ax_plus_y cn.Mpc cn.uc (fun d => rhs d + cn.pc * cn.npc d))
    (Vec.zero D)

/-- The `std::map<tag_t, vector_t>` update of the symmetry branch: if the
tag is already present add `v` into its entry, otherwise insert `(tag, v)`
at its sorted position (std::map keeps keys in ascending order). -/
def symmetry_insert {D : Nat} :
    List (Nat × Vec D) → Nat → Vec D → List (Nat × Vec D)
  | [], tag, v => [(tag, v)]
  | (k, w) :: rest, tag, v =>
    if tag < k then (tag, v) :: (k, w) :: rest
    else if tag = k then (k, fun d => w d + v d) :: rest
    else (k, w) :: symmetry_insert rest tag v

/-- Lookup of a tag in the symmetry-normal map. -/
def sym_lookup {D : Nat} (t : Nat) : List (Nat × Vec D) → Option (Vec D)
  | [] => none
  | (k, v) :: rest => if t = k then some v else sym_lookup t rest

/-- The body of the tag loop inside the wedge loop: prescribed pressure
subtracts `ℓ_w · p_bc(x_w, t) · n_w` from the right-hand side; otherwise a
symmetry condition accumulates `ℓ_w · n_w` into the per-tag map entry;
other conditions leave the state unchanged. -/
def apply_wedge_tag {D : Nat} (bm : Nat → boundary_condition_t D) (time : ℚ)
    (w : BndWedge D) (acc : Vec D × List (Nat × Vec D)) (tag : Nat) :
    Vec D × List (Nat × Vec D) :=
  let b := bm tag
  if b.has_prescribed_pressure then
    let fact := w.facet_area * b.pressure w.facet_centroid time
    (fun d => acc.1 d - fact * w.facet_normal d, acc.2)
  else if b.has_symmetry then
    (acc.1, symmetry_insert acc.2 tag (fun d => w.facet_area * w.facet_normal d))
  else
    acc

/-- The wedge loop over the boundary wedges of the vertex, iterating the
tag loop over the face tags of each wedge.  The state is the pair of the
right-hand side and the symmetry-normal map (initially empty). -/
def apply_bnd_wedges {D : Nat} (bm : Nat → boundary_condition_t D) (time : ℚ)
    (wedges : List (BndWedge D)) (rhs : Vec D) : Vec D × List (Nat × Vec D) :=
  wedges.foldl (fun acc w => w.face_tags.foldl (apply_wedge_tag bm time w) acc)
    (rhs, [])

/-- A `D`-vector read through a flat (array-view style) index: entries past
`D` read zero. -/
def vecN {D : Nat} (v : Vec D) (i : Nat) : ℚ :=
  if h : i < D then v ⟨i, h⟩ else 0

/-- A `D × D` matrix read through flat indices. -/
def matN {D : Nat} (A : Mat D) (i j : Nat) : ℚ :=
  if h : i < D then if h2 : j < D then A ⟨i, h⟩ ⟨j, h2⟩ else 0 else 0

/-- A single `A_view(i, j) = v` assignment into the flat system matrix. -/
def mat_set (A : Nat → Nat → ℚ) (i j : Nat) (v : ℚ) : Nat → Nat → ℚ :=
  fun a b => if a = i ∧ b = j then v else A a b

/-- The two nested loops inserting the old `D × D` system into the top-left
block of the zeroed constrained matrix. -/
def copy_Mp (D : Nat) (Mp : Mat D) : Nat → Nat → ℚ :=
  (List.range D).foldl
    (fun A i =>
      (List.range D).foldl (fun B j => mat_set B i j (matN Mp i j)) A)
    (fun _ _ => 0)

/-- The constraint-column loop for one row `i`: starting at column `j0`,
write the `i`-th component of each symmetry normal into consecutive
columns (`int j = num_dims; for n in symmetry_normals: A(i, j++) = n.second[i]`). -/
def set_constraint_cols {D : Nat} (A : Nat → Nat → ℚ) (i j0 : Nat) :
    List (Nat × Vec D) → Nat → Nat → ℚ
  | [] => A
  | n :: rest => set_constraint_cols (mat_set A i j0 (vecN n.2 i)) i (j0 + 1) rest

/-- The constraint-row loop: starting at row `i0`, write each symmetry
normal into the first `D` columns of consecutive rows. -/
def set_constraint_rows (D : Nat) {D2 : Nat} (A : Nat → Nat → ℚ) (i0 : Nat) :
    List (Nat × Vec D2) → Nat → Nat → ℚ
  | [] => A
  | n :: rest =>
    set_constraint_rows D
      ((List.range D).foldl (fun B j => mat_set B i0 j (vecN n.2 j)) A)
      (i0 + 1) rest

/-- The full assembly of the `(D+k) × (D+k)` constrained system matrix:
copy `Mp` into the top-left block, then fill the constraint columns for
each of the first `D` rows, then the constraint rows. -/
def build_saddle_A (D : Nat) (Mp : Mat D) (syms : List (Nat × Vec D)) :
    Nat → Nat → ℚ :=
  let A1 := copy_Mp D Mp
  let A2 := (List.range D).foldl (fun A i => set_constraint_cols A i D syms) A1
  set_constraint_rows D A2 D syms

/-- The constrained right-hand side: a zeroed vector of length `D + k`
whose first `D` entries are the assembled right-hand side. -/
def build_saddle_b {D : Nat} (rhs : Vec D) : Nat → ℚ :=
  (List.range D).foldl (fun b d => fun a => if a = d then vecN rhs d else b a)
    (fun _ => 0)

/-- Modelled from the spec: the two dense linear solvers invoked by the
task are outside `src/` (`math::solve` of `ale/math` and `ale::linalg::qr`
of `ale/linalg/qr.h`, the latter solving by QR factorisation per the spec);
they are abstract parameters recording exactly which system each solve is
applied to. -/
structure LinearSolvers (D : Nat) where
  solve : Mat D → Vec D → Vec D
  qr : Nat → (Nat → Nat → ℚ) → (Nat → ℚ) → (Nat → ℚ)

/-- The body of the vertex loop of `evaluate_nodal_state` for one vertex. -/
def evaluate_nodal_state_vertex {D : Nat} (ls : LinearSolvers D)
    (bm : Nat → boundary_condition_t D) (time : ℚ) (vt : NodalVertex D) : Vec D :=
  let Mp := assemble_Mp vt.corners
  let rhs := assemble_rhs vt.corners
  if vt.bnd then
    match vt.tags.find? (fun t => (bm t).has_prescribed_velocity) with
    | some tg => (bm tg).velocity vt.coordinates time
    | none =>
      let rs := apply_bnd_wedges bm time vt.bnd_wedges rhs
      if rs.2.isEmpty then
        ls.solve Mp rs.1
      else
        let num_rows := D + rs.2.length
        let A := build_saddle_A D Mp rs.2
        let b := build_saddle_b rs.1
        fun d => ls.qr num_rows A b d.val
  else
    ls.solve Mp rhs

/-- The tags the wedge loop treats as symmetry constraints: the prescribed
pressure branch is checked first, so a tag accumulates a symmetry normal
exactly when its condition has no prescribed pressure and has symmetry. -/
def is_sym_tag {D : Nat} (bm : Nat → boundary_condition_t D) (t : Nat) : Bool :=
  !(bm t).has_prescribed_pressure && (bm t).has_symmetry

/-- Whether the tag appears on the face of some boundary wedge of the list. -/
def sym_occurs {D : Nat} (t : Nat) (ws : List (BndWedge D)) : Bool :=
  ws.any (fun w => w.face_tags.contains t)

/-- The sum `Σ ℓ_w · n_w` over the boundary wedges of the list whose face
carries the tag. -/
def sym_contribution {D : Nat} (t : Nat) (ws : List (BndWedge D)) : Vec D :=
  fun d =>
    ((ws.filter (fun w => w.face_tags.contains t)).map
      (fun w => w.facet_area * w.facet_normal d)).sum

/-- A concrete boundary map for exercising the symmetry path: every tag is
a pure symmetry condition. -/
def c2w_bm : Nat → boundary_condition_t 1 :=
  fun _ => ⟨false, false, true, fun _ _ => Vec.zero 1, fun _ _ => 0⟩

/-- A concrete pair of solvers (their values are irrelevant to the
dispatch structure). -/
def c2w_ls : LinearSolvers 1 :=
  ⟨fun _ _ => Vec.zero 1, fun _ _ _ _ => 0⟩

/-- A concrete boundary vertex with one boundary wedge carrying the
symmetry tag 3. -/
def c2w_vt : NodalVertex 1 :=
  ⟨[], true, [3], [⟨[3], 1, fun _ => 1, fun _ => 0⟩], fun _ => 0⟩

/-- A concrete boundary map for exercising the prescribed-velocity path:
every tag prescribes the velocity callback returning the query point. -/
def c6w_bm : Nat → boundary_condition_t 1 :=
  fun _ => ⟨true, false, false, fun x _ => x, fun _ _ => 0⟩

/-- A concrete pair of solvers for the prescribed-velocity witness. -/
def c6w_ls : LinearSolvers 1 :=
  ⟨fun _ _ => Vec.zero 1, fun _ _ _ _ => 0⟩

/-- A concrete boundary vertex with tag 2 and coordinates 7. -/
def c6w_vt : NodalVertex 1 :=
  ⟨[], true, [2], [], fun _ => 7⟩

/-!
## Helper lemmas
-/

theorem corner_coef_fold_fst {D : Nat} (zc : ℚ) (ws : List (WedgeGeom D))
    (M0 : Mat D) (N0 : Vec D) (i j : Fin D) :
    (ws.foldl
      (fun (MN : Mat D × Vec D) w =>
        ( outer_product w.facet_normal w.facet_normal MN.1 (zc * w.facet_area),
          fun d => MN.2 d + w.facet_area * w.facet_normal d ))
      (M0, N0)).1 i j
      = M0 i j
        + zc * ((ws.map
            (fun w => w.facet_area * (w.facet_normal i * w.facet_normal j))).sum) := by
  induction ws generalizing M0 N0 with
  | nil => simp
  | cons w rest ih =>
    simp only [List.foldl_cons, List.map_cons, List.sum_cons]
    rw [ih]
    simp only [outer_product]
    ring

theorem corner_coef_fold_snd {D : Nat} (zc : ℚ) (ws : List (WedgeGeom D))
    (M0 : Mat D) (N0 : Vec D) (d : Fin D) :
    (ws.foldl
      (fun (MN : Mat D × Vec D) w =>
        ( outer_product w.facet_normal w.facet_normal MN.1 (zc * w.facet_area),
          fun d => MN.2 d + w.facet_area * w.facet_normal d ))
      (M0, N0)).2 d
      = N0 d + ((ws.map (fun w => w.facet_area * w.facet_normal d)).sum) := by
  induction ws generalizing M0 N0 with
  | nil => simp
  | cons w rest ih =>
    simp only [List.foldl_cons, List.map_cons, List.sum_cons]
    rw [ih]
    ring

theorem forces_fold {D : Nat} (pc : ℚ) (uc : Vec D)
    (corners : List (CornerForceData D)) (init : FluxData D) :
    (∀ d, (corners.foldl
        (fun dudt cn => compute_update cn.uv (subcell_force pc uc cn) cn.npc dudt)
        init).momentum_rate d
      = init.momentum_rate d
        - ((corners.map (fun cn => subcell_force pc uc cn d)).sum))
    ∧ (corners.foldl
        (fun dudt cn => compute_update cn.uv (subcell_force pc uc cn) cn.npc dudt)
        init).energy_rate
      = init.energy_rate
        - ((corners.map (fun cn => dot (subcell_force pc uc cn) cn.uv)).sum)
    ∧ (corners.foldl
        (fun dudt cn => compute_update cn.uv (subcell_force pc uc cn) cn.npc dudt)
        init).volume_rate
      = init.volume_rate + ((corners.map (fun cn => dot cn.npc cn.uv)).sum)
    ∧ (corners.foldl
        (fun dudt cn => compute_update cn.uv (subcell_force pc uc cn) cn.npc dudt)
        init).mass_rate
      = init.mass_rate := by
  induction corners generalizing init with
  | nil => simp
  | cons cn rest ih =>
    simp only [List.foldl_cons, List.map_cons, List.sum_cons]
    obtain ⟨ih1, ih2, ih3, ih4⟩ := ih (compute_update cn.uv (subcell_force pc uc cn) cn.npc init)
    refine ⟨fun d => ?_, ?_, ?_, ?_⟩
    · rw [ih1]; simp only [compute_update]; ring
    · rw [ih2]; simp only [compute_update]; ring
    · rw [ih3]; simp only [compute_update]; ring
    · rw [ih4]; simp only [compute_update]

theorem vel_sum_fold {D : Nat} (f : Nat → Vec D) (cells : List Nat)
    (v0 : Vec D) (d : Fin D) :
    (cells.foldl (fun acc c => fun d => acc d + f c d) v0) d
      = v0 d + ((cells.map (fun c => f c d)).sum) := by
  induction cells generalizing v0 with
  | nil => simp
  | cons c rest ih =>
    simp only [List.foldl_cons, List.map_cons, List.sum_cons]
    rw [ih]
    ring

theorem sym_lookup_eq_none {D : Nat} (t : Nat) (m : List (Nat × Vec D))
    (h : ∀ p ∈ m, t ≠ p.1) : sym_lookup t m = none := by
  induction m with
  | nil => rfl
  | cons p rest ih =>
    obtain ⟨k, v⟩ := p
    have hk : t ≠ k := h (k, v) (List.mem_cons_self _ _)
    simp only [sym_lookup, if_neg hk]
    exact ih (fun q hq => h q (List.mem_cons_of_mem _ hq))

theorem symmetry_insert_mem_keys {D : Nat} (m : List (Nat × Vec D)) (tag : Nat)
    (v : Vec D) (p : Nat × Vec D) (hp : p ∈ symmetry_insert m tag v) :
    p.1 = tag ∨ ∃ q ∈ m, p.1 = q.1 := by
  induction m with
  | nil =>
    simp only [symmetry_insert, List.mem_singleton] at hp
    subst hp
    exact Or.inl rfl
  | cons q rest ih =>
    obtain ⟨k, w⟩ := q
    by_cases h1 : tag < k
    · simp only [symmetry_insert, if_pos h1, List.mem_cons] at hp
      rcases hp with rfl | rfl | hp
      · exact Or.inl rfl
      · exact Or.inr ⟨(k, w), List.mem_cons_self _ _, rfl⟩
      · exact Or.inr ⟨p, List.mem_cons_of_mem _ hp, rfl⟩
    · by_cases h2 : tag = k
      · subst h2
        simp only [symmetry_insert, if_neg h1, if_pos rfl, if_true, List.mem_cons] at hp
        rcases hp with hp | hp
        · exact Or.inl (by rw [hp])
        · exact Or.inr ⟨p, List.mem_cons_of_mem _ hp, rfl⟩
      · simp only [symmetry_insert, if_neg h1, if_neg h2, List.mem_cons] at hp
        rcases hp with hp | hp
        · exact Or.inr ⟨(k, w), List.mem_cons_self _ _, by rw [hp]⟩
        · rcases ih hp with he | ⟨q, hq, he⟩
          · exact Or.inl he
          · exact Or.inr ⟨q, List.mem_cons_of_mem _ hq, he⟩

theorem symmetry_insert_pairwise {D : Nat} (m : List (Nat × Vec D)) (tag : Nat)
    (v : Vec D) (h : m.Pairwise (fun p q => p.1 < q.1)) :
    (symmetry_insert m tag v).Pairwise (fun p q => p.1 < q.1) := by
  induction m with
  | nil => simp [symmetry_insert]
  | cons q rest ih =>
    obtain ⟨k, w⟩ := q
    rw [List.pairwise_cons] at h
    obtain ⟨hk, hrest⟩ := h
    by_cases h1 : tag < k
    · simp only [symmetry_insert, if_pos h1]
      refine List.Pairwise.cons ?_ (List.Pairwise.cons hk hrest)
      intro p hp
      rcases List.mem_cons.mp hp with hp2 | hp2
      · rw [hp2]; exact h1
      · exact h1.trans (hk p hp2)
    · by_cases h2 : tag = k
      · subst h2
        simp only [symmetry_insert, if_neg h1, if_pos rfl, if_true]
        refine List.Pairwise.cons ?_ hrest
        intro q hq
        exact hk q hq
      · simp only [symmetry_insert, if_neg h1, if_neg h2]
        refine List.Pairwise.cons ?_ (ih hrest)
        intro p hp
        rcases symmetry_insert_mem_keys rest tag v p hp with he | ⟨q, hq, he⟩
        · have hkt : k < tag := by omega
          simpa [he] using hkt
        · have := hk q hq
          simpa [he] using this

theorem sym_lookup_symmetry_insert_self {D : Nat} (m : List (Nat × Vec D))
    (tag : Nat) (v : Vec D) (h : m.Pairwise (fun p q => p.1 < q.1)) :
    sym_lookup tag (symmetry_insert m tag v)
      = some (fun d => ((sym_lookup tag m).getD (Vec.zero D)) d + v d) := by
  induction m with
  | nil =>
    simp only [symmetry_insert, sym_lookup, if_pos rfl, Option.getD_none]
    refine congrArg some (funext fun d => ?_)
    simp [Vec.zero]
  | cons q rest ih =>
    obtain ⟨k, w⟩ := q
    rw [List.pairwise_cons] at h
    obtain ⟨hk, hrest⟩ := h
    by_cases h1 : tag < k
    · have hne : tag ≠ k := Nat.ne_of_lt h1
      have hnone : sym_lookup tag rest = none :=
        sym_lookup_eq_none _ _ (fun p hp => Nat.ne_of_lt (h1.trans (hk p hp)))
      simp only [symmetry_insert, if_pos h1, sym_lookup, if_pos rfl, if_neg hne,
        hnone, Option.getD_none]
      refine congrArg some (funext fun d => ?_)
      simp [Vec.zero]
    · by_cases h2 : tag = k
      · subst h2
        simp [symmetry_insert, if_neg h1, sym_lookup]
      · simp only [symmetry_insert, if_neg h1, if_neg h2, sym_lookup, if_neg h2]
        exact ih hrest

theorem sym_lookup_symmetry_insert_other {D : Nat} (m : List (Nat × Vec D))
    (tag : Nat) (v : Vec D) (t : Nat) (ht : t ≠ tag) :
    sym_lookup t (symmetry_insert m tag v) = sym_lookup t m := by
  induction m with
  | nil => simp [symmetry_insert, sym_lookup, ht]
  | cons q rest ih =>
    obtain ⟨k, w⟩ := q
    by_cases h1 : tag < k
    · simp only [symmetry_insert, if_pos h1, sym_lookup, if_neg ht]
    · by_cases h2 : tag = k
      · subst h2
        simp only [symmetry_insert, if_neg h1, if_pos rfl, if_true, sym_lookup,
          if_neg ht]
      · simp only [symmetry_insert, if_neg h1, if_neg h2, sym_lookup]
        by_cases h3 : t = k
        · simp [h3]
        · simp [h3, ih]

theorem apply_wedge_tag_pairwise {D : Nat} (bm : Nat → boundary_condition_t D)
    (time : ℚ) (w : BndWedge D) (acc : Vec D × List (Nat × Vec D)) (tag : Nat)
    (h : acc.2.Pairwise (fun p q => p.1 < q.1)) :
    ((apply_wedge_tag bm time w acc tag).2).Pairwise (fun p q => p.1 < q.1) := by
  rw [apply_wedge_tag]
  split_ifs with hp hs
  · exact h
  · exact symmetry_insert_pairwise _ _ _ h
  · exact h

theorem tags_fold_pairwise {D : Nat} (bm : Nat → boundary_condition_t D)
    (time : ℚ) (w : BndWedge D) (tags : List Nat) :
    ∀ acc : Vec D × List (Nat × Vec D), acc.2.Pairwise (fun p q => p.1 < q.1) →
    ((tags.foldl (apply_wedge_tag bm time w) acc).2).Pairwise
      (fun p q => p.1 < q.1) := by
  induction tags with
  | nil => exact fun acc h => h
  | cons u rest ih =>
    intro acc h
    exact ih _ (apply_wedge_tag_pairwise bm time w acc u h)

theorem sym_lookup_apply_wedge_tag_other {D : Nat}
    (bm : Nat → boundary_condition_t D) (time : ℚ) (w : BndWedge D)
    (acc : Vec D × List (Nat × Vec D)) (tag t : Nat) (ht : t ≠ tag) :
    sym_lookup t (apply_wedge_tag bm time w acc tag).2 = sym_lookup t acc.2 := by
  rw [apply_wedge_tag]
  split_ifs with hp hs
  · rfl
  · exact sym_lookup_symmetry_insert_other _ _ _ _ ht
  · rfl

theorem apply_wedge_tag_snd_of_not_sym {D : Nat}
    (bm : Nat → boundary_condition_t D) (time : ℚ) (w : BndWedge D)
    (acc : Vec D × List (Nat × Vec D)) (tag : Nat)
    (h : is_sym_tag bm tag = false) :
    (apply_wedge_tag bm time w acc tag).2 = acc.2 := by
  rw [is_sym_tag, Bool.and_eq_false_iff] at h
  rw [apply_wedge_tag]
  split_ifs with hp hs
  · rfl
  · exfalso
    rcases h with h | h
    · rw [Bool.not_eq_false'] at h
      exact absurd h hp
    · exact absurd hs (by simp [h])
  · rfl

theorem sym_lookup_apply_wedge_tag_self {D : Nat}
    (bm : Nat → boundary_condition_t D) (time : ℚ) (w : BndWedge D)
    (acc : Vec D × List (Nat × Vec D)) (tag : Nat)
    (hsym : is_sym_tag bm tag = true)
    (hacc : acc.2.Pairwise (fun p q => p.1 < q.1)) :
    sym_lookup tag (apply_wedge_tag bm time w acc tag).2
      = some (fun d => ((sym_lookup tag acc.2).getD (Vec.zero D)) d
          + w.facet_area * w.facet_normal d) := by
  rw [is_sym_tag, Bool.and_eq_true, Bool.not_eq_true'] at hsym
  rw [apply_wedge_tag]
  rw [if_neg (by rw [hsym.1]; exact Bool.false_ne_true), if_pos hsym.2]
  exact sym_lookup_symmetry_insert_self _ _ _ hacc

theorem sym_lookup_tags_fold {D : Nat} (bm : Nat → boundary_condition_t D)
    (time : ℚ) (w : BndWedge D) (t : Nat) (tags : List Nat) :
    tags.Nodup → ∀ acc : Vec D × List (Nat × Vec D),
    acc.2.Pairwise (fun p q => p.1 < q.1) →
    sym_lookup t (tags.foldl (apply_wedge_tag bm time w) acc).2
      = if is_sym_tag bm t = true ∧ t ∈ tags then
          some (fun d => ((sym_lookup t acc.2).getD (Vec.zero D)) d
            + w.facet_area * w.facet_normal d)
        else sym_lookup t acc.2 := by
  induction tags with
  | nil =>
    intro _ acc _
    simp
  | cons u rest ih =>
    intro hnd acc hacc
    rw [List.nodup_cons] at hnd
    obtain ⟨hu, hrest⟩ := hnd
    rw [List.foldl_cons]
    have hacc1 := apply_wedge_tag_pairwise bm time w acc u hacc
    by_cases ht : t = u
    · subst ht
      by_cases hsym : is_sym_tag bm t = true
      · rw [ih hrest _ hacc1]
        rw [if_neg (fun hc => hu hc.2)]
        rw [sym_lookup_apply_wedge_tag_self bm time w acc t hsym hacc]
        rw [if_pos ⟨hsym, List.mem_cons_self _ _⟩]
      · have hsf : is_sym_tag bm t = false := by
          rw [Bool.not_eq_true] at hsym
          exact hsym
        rw [ih hrest _ hacc1]
        rw [apply_wedge_tag_snd_of_not_sym bm time w acc t hsf]
        rw [if_neg (fun hc => hsym hc.1), if_neg (fun hc => hsym hc.1)]
    · rw [ih hrest _ hacc1]
      rw [sym_lookup_apply_wedge_tag_other bm time w acc u t ht]
      by_cases hc : is_sym_tag bm t = true ∧ t ∈ rest
      · rw [if_pos hc, if_pos ⟨hc.1, List.mem_cons_of_mem _ hc.2⟩]
      · rw [if_neg hc]
        rw [if_neg (fun hc2 => hc ⟨hc2.1, ?_⟩)]
        rcases List.mem_cons.mp hc2.2 with he | hm
        · exact absurd he ht
        · exact hm

theorem sym_contribution_cons {D : Nat} (t : Nat) (w : BndWedge D)
    (rest : List (BndWedge D)) (d : Fin D) :
    sym_contribution t (w :: rest) d
      = (if w.face_tags.contains t then w.facet_area * w.facet_normal d else 0)
        + sym_contribution t rest d := by
  rw [sym_contribution, sym_contribution, List.filter_cons]
  by_cases h : w.face_tags.contains t
  · rw [if_pos h, if_pos h, List.map_cons, List.sum_cons]
  · rw [if_neg h, if_neg h, zero_add]

theorem sym_contribution_of_not_occurs {D : Nat} (t : Nat)
    (ws : List (BndWedge D)) (h : sym_occurs t ws = false) (d : Fin D) :
    sym_contribution t ws d = 0 := by
  rw [sym_occurs, List.any_eq_false] at h
  rw [sym_contribution]
  have : ws.filter (fun w => w.face_tags.contains t) = [] := by
    rw [List.filter_eq_nil_iff]
    intro w hw
    exact h w hw
  rw [this]
  rfl

theorem sym_lookup_wedges_fold {D : Nat} (bm : Nat → boundary_condition_t D)
    (time : ℚ) (t : Nat) (ws : List (BndWedge D)) :
    (∀ w ∈ ws, w.face_tags.Nodup) → ∀ acc : Vec D × List (Nat × Vec D),
    acc.2.Pairwise (fun p q => p.1 < q.1) →
    sym_lookup t (ws.foldl
        (fun acc w => w.face_tags.foldl (apply_wedge_tag bm time w) acc) acc).2
      = if is_sym_tag bm t = true ∧ sym_occurs t ws = true then
          some (fun d => ((sym_lookup t acc.2).getD (Vec.zero D)) d
            + sym_contribution t ws d)
        else sym_lookup t acc.2 := by
  induction ws with
  | nil =>
    intro _ acc _
    simp [sym_occurs]
  | cons w rest ih =>
    intro hnd acc hacc
    have hw : w.face_tags.Nodup := hnd w (List.mem_cons_self _ _)
    have hrest : ∀ x ∈ rest, x.face_tags.Nodup :=
      fun x hx => hnd x (List.mem_cons_of_mem _ hx)
    rw [List.foldl_cons]
    have hacc1 := tags_fold_pairwise bm time w w.face_tags acc hacc
    rw [ih hrest _ hacc1]
    rw [sym_lookup_tags_fold bm time w t w.face_tags hw acc hacc]
    have hocc : sym_occurs t (w :: rest)
        = (w.face_tags.contains t || sym_occurs t rest) := by
      rw [sym_occurs, sym_occurs, List.any_cons]
    by_cases hsym : is_sym_tag bm t = true
    · by_cases hmem : t ∈ w.face_tags
      · have hcont : w.face_tags.contains t = true := List.elem_iff.mpr hmem
        by_cases hor : sym_occurs t rest = true
        · rw [if_pos ⟨hsym, hor⟩]
          rw [if_pos ⟨hsym, hmem⟩]
          rw [if_pos ⟨hsym, show sym_occurs t (w :: rest) = true by rw [hocc, hcont]; rfl⟩]
          refine congrArg some (funext fun d => ?_)
          rw [Option.getD_some, sym_contribution_cons, if_pos hcont]
          ring
        · rw [if_neg (fun hc => hor hc.2)]
          rw [if_pos ⟨hsym, hmem⟩]
          rw [if_pos ⟨hsym, show sym_occurs t (w :: rest) = true by rw [hocc, hcont]; rfl⟩]
          refine congrArg some (funext fun d => ?_)
          rw [sym_contribution_cons, if_pos hcont]
          rw [Bool.not_eq_true] at hor
          rw [sym_contribution_of_not_occurs t rest hor, add_zero]
      · have hcont : w.face_tags.contains t = false := by
          rw [Bool.eq_false_iff]
          intro hc
          exact hmem (List.elem_iff.mp hc)
        by_cases hor : sym_occurs t rest = true
        · rw [if_pos ⟨hsym, hor⟩]
          rw [if_neg (fun hc => hmem hc.2)]
          rw [if_pos ⟨hsym,
            show sym_occurs t (w :: rest) = true by rw [hocc, hcont, Bool.false_or]; exact hor⟩]
          refine congrArg some (funext fun d => ?_)
          rw [sym_contribution_cons, if_neg (by rw [hcont]; exact Bool.false_ne_true),
            zero_add]
        · rw [if_neg (fun hc => hor hc.2)]
          rw [if_neg (fun hc => hmem hc.2)]
          rw [if_neg (fun hc => hor ?_)]
          have := hc.2
          rw [hocc, hcont, Bool.false_or] at this
          exact this
    · rw [if_neg (fun hc => hsym hc.1), if_neg (fun hc => hsym hc.1),
        if_neg (fun hc => hsym hc.1)]

theorem sym_lookup_apply_bnd_wedges {D : Nat}
    (bm : Nat → boundary_condition_t D) (time : ℚ) (ws : List (BndWedge D))
    (rhs : Vec D) (t : Nat) (hnd : ∀ w ∈ ws, w.face_tags.Nodup) :
    sym_lookup t (apply_bnd_wedges bm time ws rhs).2
      = if is_sym_tag bm t = true ∧ sym_occurs t ws = true
        then some (sym_contribution t ws)
        else none := by
  rw [apply_bnd_wedges]
  rw [sym_lookup_wedges_fold bm time t ws hnd (rhs, []) (by constructor)]
  by_cases hc : is_sym_tag bm t = true ∧ sym_occurs t ws = true
  · rw [if_pos hc, if_pos hc]
    refine congrArg some (funext fun d => ?_)
    show ((sym_lookup t []).getD (Vec.zero D)) d + sym_contribution t ws d = _
    rw [sym_lookup, Option.getD_none]
    show 0 + _ = _
    rw [zero_add]
  · rw [if_neg hc, if_neg hc]
    rfl

theorem apply_bnd_wedges_pairwise {D : Nat} (bm : Nat → boundary_condition_t D)
    (time : ℚ) (ws : List (BndWedge D)) (rhs : Vec D) :
    ((apply_bnd_wedges bm time ws rhs).2).Pairwise (fun p q => p.1 < q.1) := by
  rw [apply_bnd_wedges]
  have h : ∀ (l : List (BndWedge D)) (acc : Vec D × List (Nat × Vec D)),
      acc.2.Pairwise (fun p q => p.1 < q.1) →
      ((l.foldl (fun acc w => w.face_tags.foldl (apply_wedge_tag bm time w) acc)
        acc).2).Pairwise (fun p q => p.1 < q.1) := by
    intro l
    induction l with
    | nil => exact fun acc h => h
    | cons w rest ih =>
      intro acc hacc
      exact ih _ (tags_fold_pairwise bm time w w.face_tags acc hacc)
  exact h ws (rhs, []) (by constructor)

theorem mat_set_apply (A : Nat → Nat → ℚ) (i j : Nat) (v : ℚ) (a b : Nat) :
    mat_set A i j v a b = if a = i ∧ b = j then v else A a b := rfl

theorem row_fold_char (A : Nat → Nat → ℚ) (i : Nat) (f : Nat → ℚ) (m : Nat)
    (a b : Nat) :
    ((List.range m).foldl (fun B j => mat_set B i j (f j)) A) a b
      = if a = i ∧ b < m then f b else A a b := by
  induction m generalizing A with
  | zero => simp
  | succ n ih =>
    rw [List.range_succ, List.foldl_append, List.foldl_cons, List.foldl_nil]
    rw [mat_set_apply, ih]
    by_cases ha : a = i
    · subst ha
      by_cases hb : b = n
      · subst hb
        rw [if_pos ⟨rfl, rfl⟩, if_pos ⟨rfl, by omega⟩]
      · rw [if_neg (fun hc => hb hc.2)]
        by_cases hb2 : b < n
        · rw [if_pos ⟨rfl, hb2⟩, if_pos ⟨rfl, by omega⟩]
        · rw [if_neg (fun hc => hb2 hc.2), if_neg (fun hc => by omega)]
    · rw [if_neg (fun hc => ha hc.1), if_neg (fun hc => ha hc.1),
        if_neg (fun hc => ha hc.1)]

theorem copy_Mp_char (D : Nat) (Mp : Mat D) (a b : Nat) :
    copy_Mp D Mp a b = if a < D ∧ b < D then matN Mp a b else 0 := by
  rw [copy_Mp]
  have h : ∀ (n : Nat) (A : Nat → Nat → ℚ),
      ((List.range n).foldl
        (fun A i => (List.range D).foldl
          (fun B j => mat_set B i j (matN Mp i j)) A) A) a b
        = if a < n ∧ b < D then matN Mp a b else A a b := by
    intro n
    induction n with
    | zero => intro A; simp
    | succ k ih =>
      intro A
      rw [List.range_succ, List.foldl_append, List.foldl_cons, List.foldl_nil]
      rw [row_fold_char, ih]
      by_cases ha : a = k
      · subst ha
        by_cases hb : b < D
        · rw [if_pos ⟨rfl, hb⟩, if_pos ⟨by omega, hb⟩]
        · rw [if_neg (fun hc => hb hc.2), if_neg (fun hc => hb hc.2),
            if_neg (fun hc => hb hc.2)]
      · by_cases h2 : a < k ∧ b < D
        · rw [if_neg (fun hc => ha hc.1), if_pos h2, if_pos ⟨by omega, h2.2⟩]
        · rw [if_neg (fun hc => ha hc.1), if_neg h2, if_neg (fun hc => by
            exact h2 ⟨by omega, hc.2⟩)]
  rw [h D]

theorem set_constraint_cols_char {D2 : Nat} (i : Nat)
    (syms : List (Nat × Vec D2)) :
    ∀ (A : Nat → Nat → ℚ) (j0 a b : Nat),
    set_constraint_cols A i j0 syms a b
      = if a = i ∧ j0 ≤ b ∧ b < j0 + syms.length
        then vecN ((syms.getD (b - j0) (0, Vec.zero D2)).2) i
        else A a b := by
  induction syms with
  | nil =>
    intro A j0 a b
    rw [set_constraint_cols]
    rw [if_neg (fun hc => by
      simp only [List.length_nil] at hc
      omega)]
  | cons n rest ih =>
    intro A j0 a b
    rw [set_constraint_cols, ih]
    by_cases ha : a = i
    · subst ha
      by_cases hb : j0 + 1 ≤ b ∧ b < j0 + 1 + rest.length
      · rw [if_pos ⟨rfl, hb⟩, if_pos ⟨rfl, by simp only [List.length_cons]; omega⟩]
        have hd : b - j0 = (b - (j0 + 1)) + 1 := by omega
        rw [hd, List.getD_cons_succ]
      · rw [if_neg (fun hc => hb hc.2), mat_set_apply]
        by_cases hbj : b = j0
        · subst hbj
          rw [if_pos ⟨rfl, rfl⟩, if_pos ⟨rfl, by simp only [List.length_cons]; omega⟩]
          rw [Nat.sub_self, List.getD_cons_zero]
        · rw [if_neg (fun hc => hbj hc.2), if_neg (fun hc => by
            simp at hc
            omega)]
    · rw [if_neg (fun hc => ha hc.1), mat_set_apply,
        if_neg (fun hc => ha hc.1), if_neg (fun hc => ha hc.1)]

theorem set_constraint_rows_char (D : Nat) {D2 : Nat}
    (syms : List (Nat × Vec D2)) :
    ∀ (A : Nat → Nat → ℚ) (i0 a b : Nat),
    set_constraint_rows D A i0 syms a b
      = if i0 ≤ a ∧ a < i0 + syms.length ∧ b < D
        then vecN ((syms.getD (a - i0) (0, Vec.zero D2)).2) b
        else A a b := by
  induction syms with
  | nil =>
    intro A i0 a b
    rw [set_constraint_rows]
    rw [if_neg (fun hc => by
      simp only [List.length_nil] at hc
      omega)]
  | cons n rest ih =>
    intro A i0 a b
    rw [set_constraint_rows, ih]
    by_cases hb : b < D
    · by_cases ha : i0 + 1 ≤ a ∧ a < i0 + 1 + rest.length
      · rw [if_pos ⟨ha.1, ha.2, hb⟩, if_pos ⟨by omega, by simp only [List.length_cons]; omega, hb⟩]
        have hd : a - i0 = (a - (i0 + 1)) + 1 := by omega
        rw [hd, List.getD_cons_succ]
      · rw [if_neg (fun hc => ha ⟨hc.1, hc.2.1⟩), row_fold_char]
        by_cases hai : a = i0
        · subst hai
          rw [if_pos ⟨rfl, hb⟩, if_pos ⟨le_refl _, by simp only [List.length_cons]; omega, hb⟩]
          rw [Nat.sub_self, List.getD_cons_zero]
        · rw [if_neg (fun hc => hai hc.1), if_neg (fun hc => by
            simp at hc
            omega)]
    · by_cases ha : i0 + 1 ≤ a ∧ a < i0 + 1 + rest.length
      · rw [if_neg (fun hc => hb hc.2.2), row_fold_char,
          if_neg (fun hc => hb hc.2), if_neg (fun hc => hb hc.2.2)]
      · rw [if_neg (fun hc => hb hc.2.2), row_fold_char,
          if_neg (fun hc => hb hc.2), if_neg (fun hc => hb hc.2.2)]

theorem cols_all_char {D2 : Nat} (syms : List (Nat × Vec D2)) (D : Nat) :
    ∀ (n : Nat) (A : Nat → Nat → ℚ) (a b : Nat),
    ((List.range n).foldl (fun A i => set_constraint_cols A i D syms) A) a b
      = if a < n ∧ D ≤ b ∧ b < D + syms.length
        then vecN ((syms.getD (b - D) (0, Vec.zero D2)).2) a
        else A a b := by
  intro n
  induction n with
  | zero => intro A a b; simp
  | succ k ih =>
    intro A a b
    rw [List.range_succ, List.foldl_append, List.foldl_cons, List.foldl_nil]
    rw [set_constraint_cols_char, ih]
    by_cases hb : D ≤ b ∧ b < D + syms.length
    · by_cases ha : a = k
      · subst ha
        rw [if_pos ⟨rfl, hb⟩, if_pos ⟨by omega, hb⟩]
      · by_cases ha2 : a < k
        · rw [if_neg (fun hc => ha hc.1), if_pos ⟨ha2, hb⟩,
            if_pos ⟨by omega, hb⟩]
        · rw [if_neg (fun hc => ha hc.1), if_neg (fun hc => ha2 hc.1),
            if_neg (fun hc => by omega)]
    · rw [if_neg (fun hc => hb hc.2), if_neg (fun hc => hb hc.2),
        if_neg (fun hc => hb hc.2)]

theorem build_saddle_A_char (D : Nat) (Mp : Mat D) (syms : List (Nat × Vec D))
    (a b : Nat) :
    build_saddle_A D Mp syms a b
      = if D ≤ a ∧ a < D + syms.length ∧ b < D
        then vecN ((syms.getD (a - D) (0, Vec.zero D)).2) b
        else if a < D ∧ D ≤ b ∧ b < D + syms.length
        then vecN ((syms.getD (b - D) (0, Vec.zero D)).2) a
        else if a < D ∧ b < D then matN Mp a b
        else 0 := by
  rw [build_saddle_A]
  rw [set_constraint_rows_char, cols_all_char, copy_Mp_char]

theorem build_saddle_b_char {D : Nat} (rhs : Vec D) (a : Nat) :
    build_saddle_b rhs a = if a < D then vecN rhs a else 0 := by
  rw [build_saddle_b]
  have h : ∀ (n : Nat) (B : Nat → ℚ),
      ((List.range n).foldl
        (fun b d => fun x => if x = d then vecN rhs d else b x) B) a
        = if a < n then vecN rhs a else B a := by
    intro n
    induction n with
    | zero => intro B; simp
    | succ k ih =>
      intro B
      rw [List.range_succ, List.foldl_append, List.foldl_cons, List.foldl_nil]
      by_cases ha : a = k
      · subst ha
        rw [if_pos rfl, if_pos (by omega)]
      · rw [if_neg ha, ih]
        by_cases ha2 : a < k
        · rw [if_pos ha2, if_pos (by omega)]
        · rw [if_neg ha2, if_neg (by omega)]
  rw [h D]

theorem save_solution_def {D : Nat} (cells : List Nat) (s : SolutionState D) :
    save_solution cells s =
      { s with
        cell_velocity_1 := fun c =>
          if c ∈ cells then s.cell_velocity_0 c else s.cell_velocity_1 c
        cell_internal_energy_1 := fun c =>
          if c ∈ cells then s.cell_internal_energy_0 c else s.cell_internal_energy_1 c } := by
  induction cells generalizing s with
  | nil =>
    show s = _
    ext c <;> simp
  | cons a t ih =>
    show save_solution t _ = _
    rw [ih]
    refine SolutionState.ext rfl ?_ rfl ?_ rfl rfl rfl rfl rfl rfl rfl rfl
    · funext c
      by_cases h1 : c = a
      · subst h1
        by_cases h2 : c ∈ t <;> simp [Function.update, h2]
      · by_cases h2 : c ∈ t <;> simp [Function.update, h1, h2]
    · funext c
      by_cases h1 : c = a
      · subst h1
        by_cases h2 : c ∈ t <;> simp [Function.update, h2]
      · by_cases h2 : c ∈ t <;> simp [Function.update, h1, h2]

theorem restore_solution_def {D : Nat} (cells : List Nat) (s : SolutionState D) :
    restore_solution cells s =
      { s with
        cell_velocity_0 := fun c =>
          if c ∈ cells then s.cell_velocity_1 c else s.cell_velocity_0 c
        cell_internal_energy_0 := fun c =>
          if c ∈ cells then s.cell_internal_energy_1 c else s.cell_internal_energy_0 c } := by
  induction cells generalizing s with
  | nil =>
    show s = _
    ext c <;> simp
  | cons a t ih =>
    show restore_solution t _ = _
    rw [ih]
    refine SolutionState.ext ?_ rfl ?_ rfl rfl rfl rfl rfl rfl rfl rfl rfl
    · funext c
      by_cases h1 : c = a
      · subst h1
        by_cases h2 : c ∈ t <;> simp [Function.update, h2]
      · by_cases h2 : c ∈ t <;> simp [Function.update, h1, h2]
    · funext c
      by_cases h1 : c = a
      · subst h1
        by_cases h2 : c ∈ t <;> simp [Function.update, h2]
      · by_cases h2 : c ∈ t <;> simp [Function.update, h1, h2]

theorem min_element_3_val (a b c : ℚ) : (min_element_3 a b c).2 = min a (min b c) := by
  simp only [min_element_3]
  split_ifs <;> simp_all [min_def] <;> split_ifs <;> linarith

/-!
## Claim theorems
-/

/-- C1: for a corner with cell `c` and vertex `v`, `evaluate_corner_coef`
computes the acoustic impedance as `z = ρ_c · c_c` (the classical form; the
result does not depend on the impedance multiplier or the velocities the
Burton form would use) and accumulates over the corner wedges
`M_cn = Σ_w z·ℓ_w·(n_w ⊗ n_w)` and `N_cn = Σ_w ℓ_w·n_w`. -/
theorem c1_evaluate_corner_coef_classical {D : Nat} (dc ac Gc : ℚ) (uc uv : Vec D)
    (ws : List (WedgeGeom D)) (i j d : Fin D) :
    (evaluate_corner_coef_corner dc ac Gc uc uv ws).1 i j
      = dc * ac * ((ws.map
          (fun w => w.facet_area * (w.facet_normal i * w.facet_normal j))).sum)
    ∧ (evaluate_corner_coef_corner dc ac Gc uc uv ws).2 d
      = (ws.map (fun w => w.facet_area * w.facet_normal d)).sum := by
  constructor
  · rw [evaluate_corner_coef_corner, corner_coef_fold_fst]
    simp [Mat.zero]
  · rw [evaluate_corner_coef_corner, corner_coef_fold_snd]
    simp [Vec.zero]

/-- C3: for a cell `c`, `evaluate_forces` computes for every corner
`cn = (c, v)` the subcell force `F_cn = p_c·N_cn + M_cn·(u_c − u_v)` and
accumulates these forces into the cell residual:
`d(Mu)/dt = −Σ F_cn`, `d(ME)/dt = −Σ F_cn·u_v`, `dV/dt = Σ N_cn·u_v`. -/
theorem c3_evaluate_forces_subcell {D : Nat} (pc : ℚ) (uc : Vec D)
    (corners : List (CornerForceData D)) :
    (∀ cn : CornerForceData D, ∀ d,
      subcell_force pc uc cn d
        = pc * cn.npc d + dot (cn.Mpc d) (fun k => uc k - cn.uv k))
    ∧ (∀ d, (evaluate_forces_cell pc uc corners).momentum_rate d
        = - ((corners.map (fun cn => subcell_force pc uc cn d)).sum))
    ∧ (evaluate_forces_cell pc uc corners).energy_rate
      = - ((corners.map (fun cn => dot (subcell_force pc uc cn) cn.uv)).sum)
    ∧ (evaluate_forces_cell pc uc corners).volume_rate
      = (corners.map (fun cn => dot cn.npc cn.uv)).sum
    ∧ (evaluate_forces_cell pc uc corners).mass_rate = 0 := by
  obtain ⟨h1, h2, h3, h4⟩ := forces_fold pc uc corners (FluxData.zero D)
  refine ⟨fun cn d => rfl, fun d => ?_, ?_, ?_, ?_⟩
  · rw [evaluate_forces_cell, h1]; simp [FluxData.zero, Vec.zero]
  · rw [evaluate_forces_cell, h2]; simp [FluxData.zero]
  · rw [evaluate_forces_cell, h3]; simp [FluxData.zero]
  · rw [evaluate_forces_cell, h4]; simp [FluxData.zero]

/-- C8: `save_coordinates`, then `move_mesh` (which displaces each vertex
by its nodal velocity times the step factor), then `restore_coordinates`
leaves every vertex coordinate exactly equal to its value before the
snapshot, whatever the step factor and geometry recomputation. -/
theorem c8_save_move_restore_coordinates {D : Nat} {G : Type}
    (geomOf : (Nat → Vec D) → G) (coef : ℚ) (s : MeshState D G) :
    (restore_coordinates (move_mesh geomOf coef (save_coordinates s))).coordinates
      = s.coordinates := rfl

/-- C9: for a vertex with at least one incident cell,
`estimate_nodal_state` sets the vertex velocity to the arithmetic mean of
the incident cell velocities; only the cell-velocity field enters. -/
theorem c9_estimate_nodal_state_mean {D : Nat} (cell_vel : Nat → Vec D)
    (cells : List Nat) (h : cells ≠ []) (d : Fin D) :
    estimate_nodal_state_vertex cell_vel cells d
      = ((cells.map (fun c => cell_vel c d)).sum) / (cells.length : ℚ) := by
  rw [estimate_nodal_state_vertex]
  simp only [vel_sum_fold, Vec.zero, zero_add]

/-- C10: `save_solution` snapshots exactly the two cell fields
`cell_velocity` and `cell_internal_energy` from version 0 into version 1,
and `restore_solution` copies exactly those two back from version 1 into
version 0; every other field of the state is left unchanged by both
(expressed by the record updates below, which touch no other field). -/
theorem c10_save_restore_solution_frame {D : Nat} (cells : List Nat)
    (s : SolutionState D) :
    save_solution cells s =
      { s with
        cell_velocity_1 := fun c =>
          if c ∈ cells then s.cell_velocity_0 c else s.cell_velocity_1 c
        cell_internal_energy_1 := fun c =>
          if c ∈ cells then s.cell_internal_energy_0 c else s.cell_internal_energy_1 c }
    ∧ restore_solution cells s =
      { s with
        cell_velocity_0 := fun c =>
          if c ∈ cells then s.cell_velocity_1 c else s.cell_velocity_0 c
        cell_internal_energy_0 := fun c =>
          if c ∈ cells then s.cell_internal_energy_1 c else s.cell_internal_energy_0 c } :=
  ⟨save_solution_def cells s, restore_solution_def cells s⟩

/-- C4 (amended): the growth limit computed by `evaluate_time_step` is
`CFL_g · Δt` — the growth factor multiplies the previous step directly,
without the `1 +` of the spec — and when both inverse time scales are
positive the selected new time step is the minimum of the acoustic,
volumetric, and growth limits. -/
theorem c4_evaluate_time_step_min (cfl : time_constants_t) (ts : ℚ)
    (cells : List CellDtData) (h1 : 0 < dt_acc_inv cfl cells)
    (h2 : 0 < dt_vol_inv cfl cells) :
    growth_limit cfl ts = cfl.growth * ts
    ∧ (evaluate_time_step cfl ts cells).map Prod.fst
      = Except.ok (min (cfl.accoustic / dt_acc_inv cfl cells)
          (min (cfl.volume / dt_vol_inv cfl cells) (growth_limit cfl ts))) := by
  refine ⟨rfl, ?_⟩
  rw [evaluate_time_step]
  rw [if_pos ⟨h1, h2⟩]
  simp only [Except.map, min_element_3_val]

/-- C4 witness: with all CFL constants 1, previous step 1 and a single
cell of unit signals, both inverse scales are positive and the selected
step is 1. -/
theorem c4_evaluate_time_step_min_witness :
    0 < dt_acc_inv ⟨1, 1, 1⟩ [⟨1, 1, 1, 1⟩]
    ∧ 0 < dt_vol_inv ⟨1, 1, 1⟩ [⟨1, 1, 1, 1⟩]
    ∧ (evaluate_time_step ⟨1, 1, 1⟩ 1 [⟨1, 1, 1, 1⟩]).map Prod.fst
      = Except.ok 1 := by
  have h1 : 0 < dt_acc_inv ⟨1, 1, 1⟩ [⟨1, 1, 1, 1⟩] := by
    simp [dt_acc_inv]
  have h2 : 0 < dt_vol_inv ⟨1, 1, 1⟩ [⟨1, 1, 1, 1⟩] := by
    simp [dt_vol_inv]
  refine ⟨h1, h2, ?_⟩
  rw [(c4_evaluate_time_step_min ⟨1, 1, 1⟩ 1 [⟨1, 1, 1, 1⟩] h1 h2).2]
  simp [dt_acc_inv, dt_vol_inv, growth_limit]

/-- C4 counterexample: with `CFL_g = 1` and previous step `1/2`, the code's
growth limit is `1/2` and `evaluate_time_step` returns it, while the
claim's growth limit `(1 + CFL_g) · Δt = 1` would make the claimed minimum
of the three limits `1 ≠ 1/2`. -/
theorem c4_growth_limit_counterexample :
    evaluate_time_step ⟨1, 1, 1⟩ (1/2) [⟨1, 1, 1, 1⟩]
      = Except.ok (1/2, "growth")
    ∧ growth_limit ⟨1, 1, 1⟩ (1/2) = 1/2
    ∧ (1 + (1 : ℚ)) * (1/2) = 1
    ∧ min (1 : ℚ) (min 1 ((1 + 1) * (1/2))) = 1
    ∧ (1/2 : ℚ) ≠ 1 := by
  refine ⟨?_, by norm_num [growth_limit], by norm_num, by norm_num, by norm_num⟩
  rw [evaluate_time_step]
  norm_num [dt_acc_inv, dt_vol_inv, growth_limit, min_element_3]

/-- C5: on a mesh where every cell has `dV/dt = 0` the task does not skip
the volumetric limit: the assertion `dt_vol_inv > 0` fails and
`evaluate_time_step` aborts with "infinite delta t" (though the acoustic
limit keeps the step finite), instead of returning the minimum of the
remaining limits as the spec prescribes. -/
theorem c5_volumetric_assert_fires :
    evaluate_time_step ⟨1, 1, 1⟩ 1 [⟨1, 1, 1, 0⟩]
      = Except.error "infinite delta t" := by
  rw [evaluate_time_step]
  norm_num [dt_acc_inv, dt_vol_inv]

/-- C7: the 3d edge length kernel omits the third coordinate: for the unit
edge along the z-axis it returns 0 while the Euclidean distance — the
standard closed form, which the 2d kernel does implement — is 1. -/
theorem c7_burton_3d_edge_length_drops_z :
    burton_3d_edge_length (fun _ => 0) ![0, 0, 1] = 0
    ∧ euclidean_length_3d (fun _ => 0) ![0, 0, 1] = 1
    ∧ (∀ a b : Fin 2 → ℝ,
        burton_2d_edge_length a b
          = Real.sqrt (sqr (a 0 - b 0) + sqr (a 1 - b 1))) := by
  refine ⟨?_, ?_, fun a b => rfl⟩
  · rw [burton_3d_edge_length]
    norm_num [sqr]
  · rw [euclidean_length_3d]
    norm_num [sqr]

/-- C2: at a boundary vertex with no prescribed-velocity tag, the nodal
solve accumulates one constraint normal per symmetry tag — the sum of
`ℓ_w·n_w` over the vertex boundary wedges whose face carries that tag —
keeping normals of different tags as separate entries of the (sorted,
duplicate-free) symmetry map; with `k = 0` entries the `D × D` system
`M_v·u_v = b_v` is solved directly, and with `k ≥ 1` entries the QR solver
is invoked on the `(D+k) × (D+k)` saddle-point system whose top-left block
is `M_v`, whose last `k` columns and rows hold the constraint normals, and
whose bottom-right block is zero, with right-hand side `b_v` padded by
zeros. -/
theorem c2_nodal_symmetry_constraints {D : Nat} (ls : LinearSolvers D)
    (bm : Nat → boundary_condition_t D) (time : ℚ) (vt : NodalVertex D)
    (hb : vt.bnd = true)
    (hfind : vt.tags.find? (fun t => (bm t).has_prescribed_velocity) = none)
    (hnd : ∀ w ∈ vt.bnd_wedges, w.face_tags.Nodup) :
    (∀ t : Nat,
      sym_lookup t (apply_bnd_wedges bm time vt.bnd_wedges
          (assemble_rhs vt.corners)).2
        = if is_sym_tag bm t = true ∧ sym_occurs t vt.bnd_wedges = true
          then some (sym_contribution t vt.bnd_wedges)
          else none)
    ∧ ((apply_bnd_wedges bm time vt.bnd_wedges
        (assemble_rhs vt.corners)).2).Pairwise (fun p q => p.1 < q.1)
    ∧ ((apply_bnd_wedges bm time vt.bnd_wedges
        (assemble_rhs vt.corners)).2 = [] →
      evaluate_nodal_state_vertex ls bm time vt
        = ls.solve (assemble_Mp vt.corners)
            (apply_bnd_wedges bm time vt.bnd_wedges
              (assemble_rhs vt.corners)).1)
    ∧ ((apply_bnd_wedges bm time vt.bnd_wedges
        (assemble_rhs vt.corners)).2 ≠ [] →
      evaluate_nodal_state_vertex ls bm time vt
        = fun d : Fin D => ls.qr
            (D + (apply_bnd_wedges bm time vt.bnd_wedges
              (assemble_rhs vt.corners)).2.length)
            (build_saddle_A D (assemble_Mp vt.corners)
              (apply_bnd_wedges bm time vt.bnd_wedges
                (assemble_rhs vt.corners)).2)
            (build_saddle_b (apply_bnd_wedges bm time vt.bnd_wedges
              (assemble_rhs vt.corners)).1)
            d.val)
    ∧ (∀ a b : Nat,
      build_saddle_A D (assemble_Mp vt.corners)
          (apply_bnd_wedges bm time vt.bnd_wedges
            (assemble_rhs vt.corners)).2 a b
        = if D ≤ a ∧ a < D + (apply_bnd_wedges bm time vt.bnd_wedges
              (assemble_rhs vt.corners)).2.length ∧ b < D
          then vecN (((apply_bnd_wedges bm time vt.bnd_wedges
              (assemble_rhs vt.corners)).2.getD (a - D) (0, Vec.zero D)).2) b
          else if a < D ∧ D ≤ b ∧ b < D + (apply_bnd_wedges bm time
              vt.bnd_wedges (assemble_rhs vt.corners)).2.length
          then vecN (((apply_bnd_wedges bm time vt.bnd_wedges
              (assemble_rhs vt.corners)).2.getD (b - D) (0, Vec.zero D)).2) a
          else if a < D ∧ b < D then matN (assemble_Mp vt.corners) a b
          else 0)
    ∧ (∀ a : Nat,
      build_saddle_b (apply_bnd_wedges bm time vt.bnd_wedges
          (assemble_rhs vt.corners)).1 a
        = if a < D
          then vecN (apply_bnd_wedges bm time vt.bnd_wedges
            (assemble_rhs vt.corners)).1 a
          else 0) := by
  refine ⟨fun t => sym_lookup_apply_bnd_wedges bm time vt.bnd_wedges
      (assemble_rhs vt.corners) t hnd,
    apply_bnd_wedges_pairwise bm time vt.bnd_wedges (assemble_rhs vt.corners),
    ?_, ?_,
    fun a b => build_saddle_A_char D (assemble_Mp vt.corners) _ a b,
    fun a => build_saddle_b_char _ a⟩
  · intro hempty
    simp only [evaluate_nodal_state_vertex, hb, hfind, eq_self_iff_true, if_true]
    rw [hempty]
    rfl
  · intro hne
    have hfalse : (apply_bnd_wedges bm time vt.bnd_wedges
        (assemble_rhs vt.corners)).2.isEmpty = false :=
      Bool.eq_false_iff.mpr (fun hc => hne (List.isEmpty_iff.mp hc))
    simp only [evaluate_nodal_state_vertex, hb, hfind, eq_self_iff_true, if_true]
    rw [hfalse]
    rfl

/-- C2 witness: the concrete boundary vertex `c2w_vt` with its single
symmetry tag satisfies the hypotheses, and the characterization holds
there. -/
theorem c2_nodal_symmetry_constraints_witness :
    c2w_vt.bnd = true
    ∧ c2w_vt.tags.find? (fun t => (c2w_bm t).has_prescribed_velocity) = none
    ∧ (∀ w ∈ c2w_vt.bnd_wedges, w.face_tags.Nodup)
    ∧ ((∀ t : Nat,
        sym_lookup t (apply_bnd_wedges c2w_bm 0 c2w_vt.bnd_wedges
            (assemble_rhs c2w_vt.corners)).2
          = if is_sym_tag c2w_bm t = true ∧ sym_occurs t c2w_vt.bnd_wedges = true
            then some (sym_contribution t c2w_vt.bnd_wedges)
            else none)
      ∧ ((apply_bnd_wedges c2w_bm 0 c2w_vt.bnd_wedges
          (assemble_rhs c2w_vt.corners)).2).Pairwise (fun p q => p.1 < q.1)
      ∧ ((apply_bnd_wedges c2w_bm 0 c2w_vt.bnd_wedges
          (assemble_rhs c2w_vt.corners)).2 = [] →
        evaluate_nodal_state_vertex c2w_ls c2w_bm 0 c2w_vt
          = c2w_ls.solve (assemble_Mp c2w_vt.corners)
              (apply_bnd_wedges c2w_bm 0 c2w_vt.bnd_wedges
                (assemble_rhs c2w_vt.corners)).1)
      ∧ ((apply_bnd_wedges c2w_bm 0 c2w_vt.bnd_wedges
          (assemble_rhs c2w_vt.corners)).2 ≠ [] →
        evaluate_nodal_state_vertex c2w_ls c2w_bm 0 c2w_vt
          = fun d : Fin 1 => c2w_ls.qr
              (1 + (apply_bnd_wedges c2w_bm 0 c2w_vt.bnd_wedges
                (assemble_rhs c2w_vt.corners)).2.length)
              (build_saddle_A 1 (assemble_Mp c2w_vt.corners)
                (apply_bnd_wedges c2w_bm 0 c2w_vt.bnd_wedges
                  (assemble_rhs c2w_vt.corners)).2)
              (build_saddle_b (apply_bnd_wedges c2w_bm 0 c2w_vt.bnd_wedges
                (assemble_rhs c2w_vt.corners)).1)
              d.val)
      ∧ (∀ a b : Nat,
        build_saddle_A 1 (assemble_Mp c2w_vt.corners)
            (apply_bnd_wedges c2w_bm 0 c2w_vt.bnd_wedges
              (assemble_rhs c2w_vt.corners)).2 a b
          = if 1 ≤ a ∧ a < 1 + (apply_bnd_wedges c2w_bm 0 c2w_vt.bnd_wedges
                (assemble_rhs c2w_vt.corners)).2.length ∧ b < 1
            then vecN (((apply_bnd_wedges c2w_bm 0 c2w_vt.bnd_wedges
                (assemble_rhs c2w_vt.corners)).2.getD (a - 1) (0, Vec.zero 1)).2) b
            else if a < 1 ∧ 1 ≤ b ∧ b < 1 + (apply_bnd_wedges c2w_bm 0
                c2w_vt.bnd_wedges (assemble_rhs c2w_vt.corners)).2.length
            then vecN (((apply_bnd_wedges c2w_bm 0 c2w_vt.bnd_wedges
                (assemble_rhs c2w_vt.corners)).2.getD (b - 1) (0, Vec.zero 1)).2) a
            else if a < 1 ∧ b < 1 then matN (assemble_Mp c2w_vt.corners) a b
            else 0)
      ∧ (∀ a : Nat,
        build_saddle_b (apply_bnd_wedges c2w_bm 0 c2w_vt.bnd_wedges
            (assemble_rhs c2w_vt.corners)).1 a
          = if a < 1
            then vecN (apply_bnd_wedges c2w_bm 0 c2w_vt.bnd_wedges
              (assemble_rhs c2w_vt.corners)).1 a
            else 0)) := by
  have hnd : ∀ w ∈ c2w_vt.bnd_wedges, w.face_tags.Nodup := by
    intro w hw
    rcases List.mem_singleton.mp hw with rfl
    decide
  exact ⟨rfl, rfl, hnd,
    c2_nodal_symmetry_constraints c2w_ls c2w_bm 0 c2w_vt rfl rfl hnd⟩

/-- C6: at a boundary vertex carrying a prescribed-velocity tag, the nodal
solve sets the vertex velocity from the first such tag's velocity callback
at the vertex coordinates and the current time, and skips the per-vertex
assembly and solve entirely: the result does not depend on the solvers,
the corner data, or the boundary wedges. -/
theorem c6_prescribed_velocity_skip {D : Nat} (ls : LinearSolvers D)
    (bm : Nat → boundary_condition_t D) (time : ℚ) (vt : NodalVertex D)
    (tg : Nat) (hb : vt.bnd = true)
    (hfind : vt.tags.find? (fun t => (bm t).has_prescribed_velocity) = some tg) :
    evaluate_nodal_state_vertex ls bm time vt
      = (bm tg).velocity vt.coordinates time := by
  simp only [evaluate_nodal_state_vertex, hb, hfind, eq_self_iff_true, if_true]

/-- C6 witness: the concrete boundary vertex `c6w_vt` with prescribed
velocity on tag 2 takes the callback value (the vertex coordinates, here
the constant 7) untouched by the solvers. -/
theorem c6_prescribed_velocity_skip_witness :
    c6w_vt.bnd = true
    ∧ c6w_vt.tags.find? (fun t => (c6w_bm t).has_prescribed_velocity) = some 2
    ∧ evaluate_nodal_state_vertex c6w_ls c6w_bm 0 c6w_vt
        = (c6w_bm 2).velocity c6w_vt.coordinates 0
    ∧ (c6w_bm 2).velocity c6w_vt.coordinates 0 = fun _ => 7 :=
  ⟨rfl, rfl,
    c6_prescribed_velocity_skip c6w_ls c6w_bm 0 c6w_vt 2 rfl rfl, rfl⟩

/-- C9 witness: a vertex with one incident cell of velocity 7 gets the mean
velocity 7. -/
theorem c9_estimate_nodal_state_mean_witness :
    ([5] : List Nat) ≠ []
    ∧ estimate_nodal_state_vertex (fun _ => fun _ : Fin 1 => 7) [5] 0 = 7 := by
  refine ⟨by decide, ?_⟩
  rw [c9_estimate_nodal_state_mean (fun _ => fun _ : Fin 1 => 7) [5] (by decide) 0]
  simp

end FlecsaleHydro
